import Mathlib

/-!
# A verification development for the `rdb` asset version-control tool

Shallow embedding of the Go sources (`internal/repo/repository.go` and the
`cmd` package) and proofs about the embedded definitions.

Conventions of the embedding:
* Go byte slices are `List Nat` (each element a byte value `< 256`; the code
  never depends on the bound, so it is not enforced by the type);
* Go strings that are manipulated byte-by-byte (the HEAD file) are `List Char`
  so Go's index/slice operations become `List.take`/`List.drop`;
* the on-disk object store keyed by `.rdb/objects/<h[:2]>/<h[2:]>` is an
  association list keyed by the full hash string `h` (the path is a bijective
  image of the hash, so keying by the hash is equivalent);
* fallible Go functions returning `(T, error)` become `Except String T`;
  functions that can additionally panic (slice out of range) return `GoResult`.
-/

/-- Go `[]byte`. -/
abbrev Bytes := List Nat

/-- Outcome of a Go call: a runtime panic, an `error` return, or success. -/
inductive GoResult (α : Type) where
  | panics : GoResult α
  | error (msg : String) : GoResult α
  | ok (a : α) : GoResult α
deriving DecidableEq

/-- Tests whether the call returned successfully. -/
def GoResult.isOk {α : Type} : GoResult α → Bool
  | .ok _ => true
  | _ => false

/-! ## Association lists (model of directories of files keyed by name) -/

/-- Lookup in an association list (first match wins). -/
def lookupAssoc {κ α : Type} [DecidableEq κ] (l : List (κ × α)) (k : κ) : Option α :=
  match l with
  | [] => none
  | (k', v) :: rest => if k' = k then some v else lookupAssoc rest k

/-- Overwrite-or-create: the semantics of `os.WriteFile` on a keyed file. -/
def updAssoc {κ α : Type} [DecidableEq κ] (l : List (κ × α)) (k : κ) (v : α) :
    List (κ × α) :=
  (k, v) :: l.filter (fun p => p.1 ≠ k)

/-! ## Decimal rendering and scanning

`fmt.Sprintf("%d", n)` for a non-negative length, and the `%d` verb of
`fmt.Sscanf` reading it back. -/

/-- ASCII decimal digits of `n`, as produced by `fmt.Sprintf("%d", n)`
(for the non-negative lengths the code formats). -/
def natToDigits (n : Nat) : Bytes :=
  if h : n < 10 then [48 + n]
  else natToDigits (n / 10) ++ [48 + n % 10]
  decreasing_by
    exact Nat.div_lt_self (Nat.lt_of_lt_of_le (by norm_num) (Nat.not_lt.mp h)) (by norm_num)

/-- Numeric value of a digit string (accumulator form of `%d` scanning). -/
def digitsVal (bs : Bytes) : Nat :=
  bs.foldl (fun a b => a * 10 + (b - 48)) 0

/-! ## The `fmt.Sscanf(headerStr, "%s %d", &objType, &size)` model

`%s` skips leading spaces then reads a maximal run of non-space bytes (it
fails on an empty run); the literal space matches any run of spaces; `%d`
reads a maximal non-empty run of decimal digits (the writer only ever emits
non-negative sizes, so the sign forms of `%d` are not exercised and are not
modelled); trailing input is ignored by `Sscanf`. -/

/-- Is an ASCII decimal digit byte. -/
def isDigitByte (b : Nat) : Bool := 48 ≤ b && b ≤ 57

/-- The `%d` verb: maximal non-empty digit run, value in decimal. -/
def parseDec (bs : Bytes) : Option Nat :=
  let ds := bs.takeWhile isDigitByte
  if ds.isEmpty then none else some (digitsVal ds)

/-- Model of `fmt.Sscanf(header, "%s %d", ...)`: returns the kind token and the size. -/
def parseHeader (bs : Bytes) : Option (Bytes × Nat) :=
  let rest := bs.dropWhile (fun b => b == 32)
  let tok := rest.takeWhile (fun b => b != 32)
  if tok.isEmpty then none
  else
    let rest2 := (rest.dropWhile (fun b => b != 32)).dropWhile (fun b => b == 32)
    (parseDec rest2).map (fun n => (tok, n))

/-! ## SHA-256 (`crypto/sha256` + `encoding/hex`)

A direct executable model of SHA-256 over `Nat` with explicit reduction
modulo `2 ^ 32`, followed by lower-case hex encoding, mirroring
`sha256.Sum256(data)` and `hex.EncodeToString(hash[:])`. -/

/-- Truncate to a 32-bit word. -/
def w32 (x : Nat) : Nat := x % 4294967296

/-- Right rotation of a 32-bit word (argument assumed `< 2 ^ 32`). -/
def rotr32 (x n : Nat) : Nat := w32 ((x >>> n) ||| (x <<< (32 - n)))

/-- Bitwise complement within 32 bits. -/
def not32 (x : Nat) : Nat := x ^^^ 4294967295

def sha256Ch (x y z : Nat) : Nat := (x &&& y) ^^^ (not32 x &&& z)

def sha256Maj (x y z : Nat) : Nat := (x &&& y) ^^^ (x &&& z) ^^^ (y &&& z)

def sha256BigSigma0 (x : Nat) : Nat := rotr32 x 2 ^^^ rotr32 x 13 ^^^ rotr32 x 22

def sha256BigSigma1 (x : Nat) : Nat := rotr32 x 6 ^^^ rotr32 x 11 ^^^ rotr32 x 25

def sha256SmallSigma0 (x : Nat) : Nat := rotr32 x 7 ^^^ rotr32 x 18 ^^^ (x >>> 3)

def sha256SmallSigma1 (x : Nat) : Nat := rotr32 x 17 ^^^ rotr32 x 19 ^^^ (x >>> 10)

/-- Round constants of SHA-256 (FIPS 180-4 §4.2.2), written in decimal. -/
def sha256K : List Nat :=
  [1116352408, 1899447441, 3049323471, 3921009573, 961987163,
   1508970993, 2453635748, 2870763221, 3624381080, 310598401,
   607225278, 1426881987, 1925078388, 2162078206, 2614888103,
   3248222580, 3835390401, 4022224774, 264347078, 604807628,
   770255983, 1249150122, 1555081692, 1996064986, 2554220882,
   2821834349, 2952996808, 3210313671, 3336571891, 3584528711,
   113926993, 338241895, 666307205, 773529912, 1294757372,
   1396182291, 1695183700, 1986661051, 2177026350, 2456956037,
   2730485921, 2820302411, 3259730800, 3345764771, 3516065817,
   3600352804, 4094571909, 275423344, 430227734, 506948616,
   659060556, 883997877, 958139571, 1322822218, 1537002063,
   1747873779, 1955562222, 2024104815, 2227730452, 2361852424,
   2428436474, 2756734187, 3204031479, 3329325298]

/-- Initial hash state of SHA-256 (FIPS 180-4 §5.3.3), written in decimal. -/
def sha256H0 : List Nat :=
  [1779033703, 3144134277, 1013904242, 2773480762,
   1359893119, 2600822924, 528734635, 1541459225]

/-- Big-endian 8-byte rendering of a bit length. -/
def be64 (n : Nat) : Bytes :=
  (List.range 8).map (fun i => (n >>> (8 * (7 - i))) % 256)

/-- SHA-256 padding: append `0x80`, zero pad to 56 mod 64, then the 64-bit
big-endian bit length. -/
def sha256Pad (msg : Bytes) : Bytes :=
  let padZeros := (119 - msg.length % 64) % 64
  msg ++ [0x80] ++ List.replicate padZeros 0 ++ be64 (msg.length * 8)

/-- Split into 64-byte blocks. -/
def sha256Chunks (bs : Bytes) : List Bytes :=
  if h : bs = [] then []
  else bs.take 64 :: sha256Chunks (bs.drop 64)
  termination_by bs.length
  decreasing_by
    have : bs.length ≠ 0 := fun hl => h (List.eq_nil_of_length_eq_zero hl)
    simp only [List.length_drop]
    omega

/-- The 16 big-endian 32-bit words of one block. -/
def sha256Words (block : Bytes) : List Nat :=
  (List.range 16).map (fun i =>
    (block.getD (4 * i) 0) <<< 24 ||| (block.getD (4 * i + 1) 0) <<< 16 |||
    (block.getD (4 * i + 2) 0) <<< 8 ||| block.getD (4 * i + 3) 0)

/-- Extend 16 words to the 64-entry message schedule. -/
def sha256Schedule (ws : List Nat) : List Nat :=
  (List.range 48).foldl
    (fun w _ =>
      w ++ [w32 (sha256SmallSigma1 (w.getD (w.length - 2) 0) +
                 w.getD (w.length - 7) 0 +
                 sha256SmallSigma0 (w.getD (w.length - 15) 0) +
                 w.getD (w.length - 16) 0)])
    ws

/-- One compression round. -/
def sha256Round (wt kt : Nat) (st : List Nat) : List Nat :=
  let a := st.getD 0 0
  let b := st.getD 1 0
  let c := st.getD 2 0
  let d := st.getD 3 0
  let e := st.getD 4 0
  let f := st.getD 5 0
  let g := st.getD 6 0
  let h := st.getD 7 0
  let t1 := w32 (h + sha256BigSigma1 e + sha256Ch e f g + kt + wt)
  let t2 := w32 (sha256BigSigma0 a + sha256Maj a b c)
  [w32 (t1 + t2), a, b, c, w32 (d + t1), e, f, g]

/-- Compress one 64-byte block into the running hash state. -/
def sha256Compress (h : List Nat) (block : Bytes) : List Nat :=
  let w := sha256Schedule (sha256Words block)
  let st := (List.range 64).foldl (fun st t => sha256Round (w.getD t 0) (sha256K.getD t 0) st) h
  List.zipWith (fun x y => w32 (x + y)) h st

/-- The 32-byte digest, `sha256.Sum256`. -/
def sha256Bytes (msg : Bytes) : Bytes :=
  let hs := (sha256Chunks (sha256Pad msg)).foldl sha256Compress sha256H0
  hs.foldr (fun wrd acc =>
    (wrd >>> 24) % 256 :: (wrd >>> 16) % 256 :: (wrd >>> 8) % 256 :: wrd % 256 :: acc) []

/-- Lower-case hex digit. -/
def hexChar (n : Nat) : Char :=
  if n < 10 then Char.ofNat (48 + n) else Char.ofNat (87 + n)

/-- Hex encoding of the digest, `hex.EncodeToString(sha256.Sum256(msg)[:])`. -/
def sha256Hex (msg : Bytes) : String :=
  String.mk ((sha256Bytes msg).foldr (fun b acc => hexChar (b / 16) :: hexChar (b % 16) :: acc) [])

/-! ## Repository state

`.rdb/objects/` keyed by hash string, `.rdb/refs/heads/` keyed by branch
name, and the contents of `.rdb/HEAD` (a `List Char`, since
`GetCurrentBranch` indexes into it). -/

structure RepoState where
  objects : List (String × Bytes)
  refs : List (List Char × String)
  head : List Char
deriving DecidableEq

/-- UTF-8 bytes of an ASCII string (all strings the code stores are ASCII,
where UTF-8 is the identity on code points). -/
def strBytes (s : String) : Bytes := s.data.map Char.toNat

/-! ## The object store (`writeObject` / `readObject`) -/

/-- The bytes the code feeds to `sha256.Sum256` in `writeObject`: the
source computes `hash := sha256.Sum256(data)` from the marshaled payload
alone; the kind tag is not part of the hashed input (it is prepended to the
stored file content only after the hash is computed). -/
def hashInput (objType : Bytes) (data : Bytes) : Bytes := data

/-- Stored file content with an explicit declared size:
`"<kind> <size>\0" + payload`. -/
def mkRawContent (objType : Bytes) (size : Nat) (data : Bytes) : Bytes :=
  objType ++ [32] ++ natToDigits size ++ [0] ++ data

/-- Stored file content produced by `writeObject`:
`fmt.Sprintf("%s %d\000", objType, len(data)) + string(data)`. -/
def mkObjectContent (objType : Bytes) (data : Bytes) : Bytes :=
  mkRawContent objType data.length data

/-- Modelled from the spec (§4.1): the canonical encoding
`"<kind> <byteLength>\0<payload>"` that the content hash is specified to be
computed over, for comparison with the bytes the code actually hashes. -/
def specCanonicalEncoding (kind : Bytes) (payload : Bytes) : Bytes :=
  kind ++ [32] ++ natToDigits payload.length ++ [0] ++ payload

/-- Embedding of `Repository.writeObject` (and the public `WriteObject`): hash the
marshaled payload, then store `"<kind> <len>\0" + payload` at the path
derived from the hash.  Returns the hex hash and the new state. -/
def writeObject (st : RepoState) (objType : Bytes) (data : Bytes) :
    String × RepoState :=
  let hashStr := sha256Hex (hashInput objType data)
  (hashStr,
   { st with objects := updAssoc st.objects hashStr (mkObjectContent objType data) })

/-- The pure part of `readObject` after the file was read: find the first
null byte, `Sscanf` the header, check the declared size against the payload
length. -/
def decodeObject (data : Bytes) : Except String (Bytes × Bytes) :=
  match data.findIdx? (fun b => b == 0) with
  | none => .error "invalid object format: no null separator found"
  | some nullIndex =>
    match parseHeader (data.take nullIndex) with
    | none => .error "failed to parse object header"
    | some (objType, size) =>
      let objData := data.drop (nullIndex + 1)
      let n := objData.length
      if n ≠ size then
        .error ("object size mismatch: expected " ++ toString size ++ ", got " ++ toString n)
      else .ok (objType, objData)

/-- Embedding of `Repository.readObject` (and the public `ReadObject`): open the file at
the hash-derived path and decode it.  Note the requested hash is used only
to locate the file; it is never re-derived from the payload. -/
def readObject (st : RepoState) (hash : String) : Except String (Bytes × Bytes) :=
  match lookupAssoc st.objects hash with
  | none => .error "failed to open object"
  | some data => decodeObject data

/-- The four object kinds of the data model, as byte strings. -/
def blobKind : Bytes := strBytes "blob"
def treeKind : Bytes := strBytes "tree"
def commitKind : Bytes := strBytes "commit"
def assetKind : Bytes := strBytes "asset"

/-- Membership of a kind in the spec's kind set: blob, tree, commit or asset. -/
def isObjectKind (k : Bytes) : Prop :=
  k = blobKind ∨ k = treeKind ∨ k = commitKind ∨ k = assetKind

instance (k : Bytes) : Decidable (isObjectKind k) := by
  unfold isObjectKind; infer_instance

/-! ## HEAD resolution (`GetCurrentBranch` / `GetCurrentCommit`) -/

/-- Embedding of `Repository.GetCurrentBranch`: the source checks only
`len(head) > 5 && head[:5] == "ref: "` and then slices `head[16:]`, which
panics when the content is shorter than 16 bytes. -/
def getCurrentBranch (head : List Char) : GoResult (List Char) :=
  if head.length > 5 then
    if head.take 5 = "ref: ".data then
      if 16 ≤ head.length then .ok (head.drop 16) else .panics
    else .error "HEAD is not pointing to a branch"
  else .error "HEAD is not pointing to a branch"

/-- Embedding of `Repository.GetCurrentCommit`: resolve the branch, read its ref file. -/
def getCurrentCommit (st : RepoState) : GoResult String :=
  match getCurrentBranch st.head with
  | .panics => .panics
  | .error e => .error e
  | .ok branch =>
    match lookupAssoc st.refs branch with
    | none => .error "failed to read branch ref"
    | some h => .ok h

/-! ## Commit records and their JSON encoding -/

/-- The `repo.Commit` struct (timestamp carried as its marshaled RFC3339
text, since `time.Time` is opaque to the claims). -/
structure CommitRec where
  id : String
  author : String
  timestamp : String
  message : String
  branch : String
  parent : String
  tree : String
deriving DecidableEq

/-- Model of `encoding/json` string escaping, restricted to the escapes the
stored fields can need (quote and backslash; the fields the code writes are
plain ASCII identifiers, messages and hashes). -/
def jsonEscape (s : String) : String :=
  String.mk (s.data.foldr
    (fun ch acc =>
      (if ch = '"' then "\\\"".data else if ch = '\\' then "\\\\".data else [ch]) ++ acc)
    [])

/-- Model of `json.Marshal` of a `repo.Commit`: fields in struct order, `parent`
omitted when empty (`omitempty`), timestamp quoted. -/
def marshalCommit (c : CommitRec) : Bytes :=
  strBytes ("\x7b\"id\":\"" ++ jsonEscape c.id ++
    "\",\"author\":\"" ++ jsonEscape c.author ++
    "\",\"timestamp\":\"" ++ c.timestamp ++
    "\",\"message\":\"" ++ jsonEscape c.message ++
    "\",\"branch\":\"" ++ jsonEscape c.branch ++ "\"" ++
    (if c.parent = "" then "" else ",\"parent\":\"" ++ jsonEscape c.parent ++ "\"") ++
    ",\"tree\":\"" ++ jsonEscape c.tree ++ "\"\x7d")

/-- Result of `json.Marshal` on the empty `Tree`: the only tree the code
ever builds (staging is a TODO, so `runCommit` always writes this tree). -/
def emptyTreeData : Bytes := strBytes "\x7b\"entries\":[]\x7d"

/-! ## `runCommit` (cmd/commit.go)

The command pipeline after the repository is opened, with the
nondeterministic inputs (`repo.GenerateID()`, `time.Now()`) passed as
parameters.  The state is threaded alongside the result so that error paths
demonstrably leave it unchanged. -/

def runCommit (st : RepoState) (amend : Bool) (message author newID timestamp : String) :
    GoResult (CommitRec × String) × RepoState :=
  match getCurrentBranch st.head with
  | .panics => (.panics, st)
  | .error _ => (.error "failed to get current branch", st)
  | .ok branch =>
    let parentRes : GoResult String := if amend then getCurrentCommit st else .ok ""
    match parentRes with
    | .panics => (.panics, st)
    | .error _ => (.error "failed to get current commit", st)
    | .ok parentCommit =>
      let author2 := if author = "" then "RDB <rdb@localhost>" else author
      let parent := if amend && parentCommit ≠ "" then parentCommit else ""
      let treeWrite := writeObject st treeKind emptyTreeData
      let commit : CommitRec :=
        { id := newID, author := author2, timestamp := timestamp,
          message := message, branch := String.mk branch, parent := parent,
          tree := treeWrite.1 }
      let commitWrite := writeObject treeWrite.2 commitKind (marshalCommit commit)
      let st3 :=
        { commitWrite.2 with refs := updAssoc commitWrite.2.refs branch commitWrite.1 }
      (.ok (commit, commitWrite.1), st3)

/-- Embedding of `Repository.Init` plus `createInitialCommit`, restricted to the parts of
the state the claims observe: HEAD symbolic on `main`, the empty tree and
initial commit objects stored, `refs/heads/main` set to the initial commit
hash. -/
def initialState (genID timestamp : String) : RepoState :=
  let st0 : RepoState := { objects := [], refs := [], head := "ref: refs/heads/main".data }
  let treeWrite := writeObject st0 treeKind emptyTreeData
  let commit : CommitRec :=
    { id := genID, author := "RDB <rdb@localhost>", timestamp := timestamp,
      message := "Initial commit", branch := "main", parent := "",
      tree := treeWrite.1 }
  let commitWrite := writeObject treeWrite.2 commitKind (marshalCommit commit)
  { commitWrite.2 with refs := updAssoc commitWrite.2.refs "main".data commitWrite.1 }

/-! ## Filesystem operation traces

The sequence of filesystem calls a write performs, for reasoning about the
write mechanism itself (direct write vs. temp-file-plus-rename).  Paths are
repository-relative (the constant repository root prefix is dropped). -/

inductive FsOp where
  | mkdirAll (path : String) : FsOp
  | writeFile (path : String) (content : Bytes) : FsOp
  | rename (src dst : String) : FsOp
deriving DecidableEq

/-- Is this operation a rename? -/
def FsOp.isRename : FsOp → Bool
  | .rename _ _ => true
  | _ => false

/-- The sharded directory of an object: `.rdb/objects/<h[:2]>`. -/
def objectDir (h : String) : String := ".rdb/objects/" ++ h.take 2

/-- The final path of an object: `.rdb/objects/<h[:2]>/<h[2:]>`. -/
def objectPath (h : String) : String := objectDir h ++ "/" ++ h.drop 2

/-- The filesystem calls `writeObject` performs, in order:
`os.MkdirAll(filepath.Dir(objPath))` then `os.WriteFile(objPath, content)`. -/
def writeObjectOps (objType : Bytes) (data : Bytes) : List FsOp :=
  [.mkdirAll (objectDir (sha256Hex (hashInput objType data))),
   .writeFile (objectPath (sha256Hex (hashInput objType data))) (mkObjectContent objType data)]

/-- The filesystem calls of the branch-ref update in `runCommit`:
a single `os.WriteFile(refPath, []byte(commitHash))`. -/
def updateRefOps (branch : List Char) (commitHash : String) : List FsOp :=
  [.writeFile (".rdb/refs/heads/" ++ String.mk branch) (strBytes commitHash)]

/-! ## Asset types (`cmd/add.go`) -/

/-- The `assetTypeMap` literal: numeric asset ID to type name. -/
def assetTypeMap : List (Int × String) :=
  [(1000624, "flash_image"), (1030002, "string"), (1010042, "loading_screen"),
   (1000083, "xml_treasure"), (1000087, "xml_zone_transition"),
   (1000090, "xml_resurrection"), (1000635, "usm_video"), (1000636, "image"),
   (1070003, "playfield"), (1010013, "map"), (1010210, "image"),
   (1010211, "image"), (1000623, "text"), (1066603, "texture"),
   (1020001, "unknown"), (1020002, "sound_effect"), (1020005, "music"),
   (1020006, "sound_tone"), (1010207, "particle_effect"), (1000010, "file_index"),
   (1000007, "physx_xml"), (1020003, "dialog_audio"), (1010008, "misc_image")]

/-- Embedding of `getAssetTypeFromID`: map lookup with the `"unknown"` sentinel for
absent IDs. -/
def getAssetTypeFromID (id : Int) : String :=
  match lookupAssoc assetTypeMap id with
  | some assetType => assetType
  | none => "unknown"

/-! ## Asset-path recognition (`cmd/add.go`)

`isAssetPath` splits the repository-relative path at the separator and
checks `assets/<numeric id>/...`.  The embedding takes the already-split
relative path (`strings.Split(relPath, separator)`); a `filepath.Rel`
failure makes the caller treat the path as non-asset before this check, and
is outside the pure model. -/

/-- Success predicate of `strconv.Atoi`: optional sign, at least one digit, all digits,
value within the 64-bit `int` range. -/
def atoiOk (s : String) : Bool :=
  match s.data with
  | [] => false
  | c :: rest =>
    let ds := if c == '+' || c == '-' then rest else c :: rest
    !ds.isEmpty && ds.all Char.isDigit &&
      (ds.foldl (fun a ch => a * 10 + (ch.toNat - 48)) 0 ≤
        if c == '-' then 9223372036854775808 else 9223372036854775807)

/-- Embedding of `isAssetPath` on the split relative path: at least two segments, first
segment `assets`, second segment a parseable numeric ID. -/
def isAssetPath (parts : List String) : Bool :=
  match parts with
  | p0 :: p1 :: _ => p0 == "assets" && atoiOk p1
  | _ => false

/-- Modelled from the spec (§4.4): the rejection predicate in the spec's
words — the path is "outside the designated asset root, or [its] second
path segment is not a valid numeric asset ID". -/
def specNonAssetPath (parts : List String) : Bool :=
  !(parts.head? == some "assets") ||
    !(match parts[1]? with
      | some s => atoiOk s
      | none => false)

/-- The filter loop of `runAdd` over the glob matches: asset paths are
kept, every other path is skipped with a warning; the loop itself cannot
fail.  Returns (kept paths, skipped paths). -/
def processMatches (ms : List (List String)) : List (List String) × List (List String) :=
  ms.foldl
    (fun acc m => if isAssetPath m then (acc.1 ++ [m], acc.2) else (acc.1, acc.2 ++ [m]))
    ([], [])

/-- Is a lower-case hex digit (the alphabet of `hex.EncodeToString`). -/
def isHexChar (c : Char) : Bool :=
  (('0' ≤ c) && (c ≤ '9')) || (('a' ≤ c) && (c ≤ 'f'))

/-- The parent recorded in the commit record of a successful `runCommit`. -/
def commitParentOf (r : GoResult (CommitRec × String)) : Option String :=
  match r with
  | .ok (c, _) => some c.parent
  | _ => none

/-- A repository state whose HEAD commit's `tree` field is exactly the hash
of the (always empty) tree that `runCommit` writes: the no-op situation of
§4.5 step 2.  The branch ref `main` holds the head commit's hash. -/
def noopHeadCommit : CommitRec :=
  { id := "c0", author := "RDB <rdb@localhost>", timestamp := "t0",
    message := "first", branch := "main", parent := "",
    tree := sha256Hex (hashInput treeKind emptyTreeData) }

def noopState : RepoState :=
  { objects := [("aaaa", mkObjectContent commitKind (marshalCommit noopHeadCommit))],
    refs := [("main".data, "aaaa")],
    head := "ref: refs/heads/main".data }

/-- A repository state with one commit on `main` whose hash is `aaaa` and
whose own parent (the would-be grandparent) is `gggg`. -/
def c4HeadCommit : CommitRec :=
  { id := "c0", author := "RDB <rdb@localhost>", timestamp := "t0",
    message := "first", branch := "main", parent := "gggg",
    tree := sha256Hex (hashInput treeKind emptyTreeData) }

def c4State : RepoState :=
  { objects := [("aaaa", mkObjectContent commitKind (marshalCommit c4HeadCommit))],
    refs := [("main".data, "aaaa")],
    head := "ref: refs/heads/main".data }

theorem lookupAssoc_updAssoc_self {κ α : Type} [DecidableEq κ]
    (l : List (κ × α)) (k : κ) (v : α) :
    lookupAssoc (updAssoc l k v) k = some v := by
  simp [updAssoc, lookupAssoc]

theorem natToDigits_ne_nil (n : Nat) : natToDigits n ≠ [] := by
  rw [natToDigits]
  split <;> simp

theorem natToDigits_mem_range (n : Nat) : ∀ b ∈ natToDigits n, 48 ≤ b ∧ b ≤ 57 := by
  induction n using Nat.strong_induction_on with
  | _ n ih =>
    rw [natToDigits]
    split
    · intro b hb
      simp only [List.mem_singleton] at hb
      subst hb
      omega
    · intro b hb
      rw [List.mem_append] at hb
      rcases hb with hb | hb
      · exact ih (n / 10) (Nat.div_lt_self (by omega) (by norm_num)) b hb
      · simp only [List.mem_singleton] at hb
        subst hb
        have := Nat.mod_lt n (show 0 < 10 by norm_num)
        omega

theorem foldl_digits_aux (n : Nat) : ∀ a : Nat,
    (natToDigits n).foldl (fun a b => a * 10 + (b - 48)) a =
      a * 10 ^ (natToDigits n).length + n := by
  induction n using Nat.strong_induction_on with
  | _ n ih =>
    intro a
    rw [natToDigits]
    split
    · simp only [List.foldl_cons, List.foldl_nil, List.length_singleton]
      omega
    · rename_i h
      rw [List.foldl_append, ih (n / 10) (Nat.div_lt_self (by omega) (by norm_num))]
      simp only [List.foldl_cons, List.foldl_nil, List.length_append,
        List.length_singleton]
      have hmod : 48 + n % 10 - 48 = n % 10 := by omega
      rw [hmod, pow_succ]
      have := Nat.div_add_mod n 10
      ring_nf
      omega

/-- Scanning the decimal rendering of `n` recovers `n`. -/
theorem digitsVal_natToDigits (n : Nat) : digitsVal (natToDigits n) = n := by
  unfold digitsVal
  rw [foldl_digits_aux]
  simp

/-! ## Decoding lemmas for the object store -/

theorem findIdx?_zero_append (l r : Bytes) (hl : ∀ b ∈ l, (b == 0) = false) :
    ∀ i, List.findIdx? (fun b => b == 0) (l ++ 0 :: r) i = some (l.length + i) := by
  induction l with
  | nil => intro i; simp [List.findIdx?]
  | cons a l ih =>
    intro i
    have ha : (a == 0) = false := hl a (List.mem_cons_self a l)
    have ih2 := ih (fun b hb => hl b (List.mem_cons_of_mem a hb)) (i + 1)
    simp only [List.cons_append, List.findIdx?, ha, Bool.false_eq_true, if_false,
      List.append_eq, ih2, List.length_cons, Option.some.injEq]
    omega

theorem findIdx?_zero_append_zero (l r : Bytes) (hl : ∀ b ∈ l, (b == 0) = false) :
    List.findIdx? (fun b => b == 0) (l ++ 0 :: r) = some l.length := by
  have := findIdx?_zero_append l r hl 0
  simpa using this

theorem takeWhile_append_stop (p : Nat → Bool) (l : Bytes) (x : Nat) (r : Bytes)
    (hl : ∀ b ∈ l, p b = true) (hx : p x = false) :
    (l ++ x :: r).takeWhile p = l := by
  induction l with
  | nil => simp [List.takeWhile_cons, hx]
  | cons a l ih =>
    have ha : p a = true := hl a (List.mem_cons_self a l)
    simp only [List.cons_append, List.takeWhile_cons, ha, if_true]
    rw [ih (fun b hb => hl b (List.mem_cons_of_mem a hb))]

theorem dropWhile_append_stop (p : Nat → Bool) (l : Bytes) (x : Nat) (r : Bytes)
    (hl : ∀ b ∈ l, p b = true) (hx : p x = false) :
    (l ++ x :: r).dropWhile p = x :: r := by
  induction l with
  | nil => simp [List.dropWhile_cons, hx]
  | cons a l ih =>
    have ha : p a = true := hl a (List.mem_cons_self a l)
    simp only [List.cons_append, List.dropWhile_cons, ha, if_true]
    exact ih (fun b hb => hl b (List.mem_cons_of_mem a hb))

theorem dropWhile_false_all (p : Nat → Bool) (l : Bytes) (hl : ∀ b ∈ l, p b = false) :
    l.dropWhile p = l := by
  cases l with
  | nil => rfl
  | cons a l => simp [List.dropWhile_cons, hl a (List.mem_cons_self a l)]

theorem takeWhile_true_all (p : Nat → Bool) (l : Bytes) (hl : ∀ b ∈ l, p b = true) :
    l.takeWhile p = l := by
  induction l with
  | nil => rfl
  | cons a l ih =>
    simp only [List.takeWhile_cons, hl a (List.mem_cons_self a l), if_true]
    rw [ih (fun b hb => hl b (List.mem_cons_of_mem a hb))]

/-- Scanning `%d` on the decimal rendering of `n` recovers `n`. -/
theorem parseDec_natToDigits (n : Nat) : parseDec (natToDigits n) = some n := by
  have htake : (natToDigits n).takeWhile isDigitByte = natToDigits n := by
    refine takeWhile_true_all _ _ (fun b hb => ?_)
    have := natToDigits_mem_range n b hb
    unfold isDigitByte
    simp only [Bool.and_eq_true, decide_eq_true_eq]
    omega
  have hni : (natToDigits n).isEmpty = false := by
    cases h : natToDigits n with
    | nil => exact absurd h (natToDigits_ne_nil n)
    | cons a l => rfl
  simp only [parseDec, htake, hni, Bool.false_eq_true, if_false, digitsVal_natToDigits]

/-- Scanning the header written by `writeObject` (kind token free of spaces
and nulls, then the decimal size) recovers exactly the kind and size. -/
theorem parseHeader_encode (k : Bytes) (n : Nat) (hne : k ≠ [])
    (hsp : ∀ b ∈ k, b ≠ 32) :
    parseHeader (k ++ 32 :: natToDigits n) = some (k, n) := by
  obtain ⟨c, k', rfl⟩ : ∃ c k', k = c :: k' := by
    cases k with
    | nil => exact absurd rfl hne
    | cons c k' => exact ⟨c, k', rfl⟩
  have hc : (c == 32) = false := by
    simp only [beq_eq_false_iff_ne]
    exact hsp c (List.mem_cons_self c k')
  have hdrop1 : ((c :: k') ++ 32 :: natToDigits n).dropWhile (fun b => b == 32) =
      (c :: k') ++ 32 :: natToDigits n := by
    simp [List.dropWhile_cons, hc]
  have htok : ((c :: k') ++ 32 :: natToDigits n).takeWhile (fun b => b != 32) = c :: k' := by
    refine takeWhile_append_stop _ _ _ _ (fun b hb => ?_) (by simp)
    simp only [bne_iff_ne, ne_eq, decide_eq_true_eq]
    exact hsp b hb
  have hdrop2 : ((c :: k') ++ 32 :: natToDigits n).dropWhile (fun b => b != 32) =
      32 :: natToDigits n := by
    refine dropWhile_append_stop _ _ _ _ (fun b hb => ?_) (by simp)
    simp only [bne_iff_ne, ne_eq, decide_eq_true_eq]
    exact hsp b hb
  have hdrop3 : (32 :: natToDigits n).dropWhile (fun b => b == 32) = natToDigits n := by
    simp only [List.dropWhile_cons, beq_self_eq_true, if_true]
    refine dropWhile_false_all _ _ (fun b hb => ?_)
    have := natToDigits_mem_range n b hb
    simp only [beq_eq_false_iff_ne]
    omega
  simp only [parseHeader, hdrop1, htok, List.isEmpty_cons, Bool.false_eq_true, if_false,
    hdrop2, hdrop3, parseDec_natToDigits n]
  rfl

/-- A kind in `{blob, tree, commit, asset}` is non-empty and contains
neither a null nor a space byte. -/
theorem isObjectKind_wf (k : Bytes) (hk : isObjectKind k) :
    k ≠ [] ∧ (∀ b ∈ k, b ≠ 0) ∧ (∀ b ∈ k, b ≠ 32) := by
  rcases hk with rfl | rfl | rfl | rfl <;> refine ⟨by decide, ?_, ?_⟩ <;> decide

/-- Decoding a stored file `"<kind> <size>\0" + payload` parses back the
kind and the declared size, then compares the declared size with the
payload length: equal sizes decode to `(kind, payload)`, unequal sizes are
rejected as a size mismatch. -/
theorem decodeObject_mkRawContent (k : Bytes) (hk : isObjectKind k) (s : Nat) (d : Bytes) :
    decodeObject (mkRawContent k s d) =
      if d.length ≠ s then
        .error ("object size mismatch: expected " ++ toString s ++ ", got " ++ toString d.length)
      else .ok (k, d) := by
  obtain ⟨hne, h0, hsp⟩ := isObjectKind_wf k hk
  have hsplit : mkRawContent k s d = (k ++ 32 :: natToDigits s) ++ 0 :: d := by
    unfold mkRawContent
    simp
  have hnull : ∀ b ∈ k ++ 32 :: natToDigits s, (b == 0) = false := by
    intro b hb
    simp only [beq_eq_false_iff_ne]
    rcases List.mem_append.mp hb with hb | hb
    · exact h0 b hb
    · rcases List.mem_cons.mp hb with rfl | hb
      · omega
      · have := natToDigits_mem_range s b hb
        omega
  have hfind : (mkRawContent k s d).findIdx? (fun b => b == 0) =
      some (k ++ 32 :: natToDigits s).length := by
    rw [hsplit]
    exact findIdx?_zero_append_zero _ _ hnull
  have htake : (mkRawContent k s d).take (k ++ 32 :: natToDigits s).length =
      k ++ 32 :: natToDigits s := by
    rw [hsplit]
    exact List.take_left _ _
  have hdrop : (mkRawContent k s d).drop ((k ++ 32 :: natToDigits s).length + 1) = d := by
    rw [hsplit]
    have h1 : (k ++ 32 :: natToDigits s) ++ 0 :: d =
        ((k ++ 32 :: natToDigits s) ++ [0]) ++ d := by simp
    have h2 : (k ++ 32 :: natToDigits s).length + 1 =
        ((k ++ 32 :: natToDigits s) ++ [0]).length := by simp <;> omega
    rw [h1, h2, List.drop_left]
  simp only [decodeObject, hfind, htake, hdrop, parseHeader_encode k s hne hsp]

/-! ## Control-flow lemmas -/

/-- A HEAD whose content is made of hex digits only (a raw commit hash,
i.e. a detached HEAD) never passes the `"ref: "` prefix test. -/
theorem getCurrentBranch_hex (head : List Char)
    (hhex : ∀ c ∈ head, isHexChar c = true) :
    getCurrentBranch head = .error "HEAD is not pointing to a branch" := by
  unfold getCurrentBranch
  split
  · rename_i h5
    split
    · rename_i hpref
      exfalso
      cases head with
      | nil => simp at h5
      | cons c tl =>
        have hc : c = 'r' := by
          have hh := congrArg List.head? hpref
          simp only [List.take_succ_cons, List.head?_cons] at hh
          exact Option.some.inj hh
        subst hc
        have := hhex 'r' (List.mem_cons_self 'r' tl)
        simp [isHexChar] at this
    · rfl
  · rfl

/-- Error propagation: `runCommit` forwards a `GetCurrentBranch` error and leaves the state
untouched. -/
theorem runCommit_branch_error (st : RepoState) (amend : Bool) (m a i t e : String)
    (he : getCurrentBranch st.head = .error e) :
    runCommit st amend m a i t = (.error "failed to get current branch", st) := by
  simp only [runCommit, he]

/-- Unfolding of `runCommit` with `amend = false`, on a symbolic HEAD: unconditionally
writes the (empty) tree and the commit, records no parent, and points the
branch ref at the new commit hash. -/
theorem runCommit_noamend_eq (st : RepoState) (m a i t : String) (b : List Char)
    (hb : getCurrentBranch st.head = .ok b) :
    runCommit st false m a i t =
      (let tw := writeObject st treeKind emptyTreeData
       let c : CommitRec :=
         { id := i, author := if a = "" then "RDB <rdb@localhost>" else a,
           timestamp := t, message := m, branch := String.mk b, parent := "",
           tree := tw.1 }
       let cw := writeObject tw.2 commitKind (marshalCommit c)
       (.ok (c, cw.1), { cw.2 with refs := updAssoc cw.2.refs b cw.1 })) := by
  simp only [runCommit, hb]
  rfl

/-- Unfolding of `runCommit` with `amend = true`, on a symbolic HEAD whose branch ref
holds a non-empty hash `p`: records `p` — the commit currently at the tip,
i.e. the commit being amended away — as the new commit's parent. -/
theorem runCommit_amend_eq (st : RepoState) (m a i t : String) (b : List Char) (p : String)
    (hb : getCurrentBranch st.head = .ok b)
    (hr : lookupAssoc st.refs b = some p) (hp : p ≠ "") :
    runCommit st true m a i t =
      (let tw := writeObject st treeKind emptyTreeData
       let c : CommitRec :=
         { id := i, author := if a = "" then "RDB <rdb@localhost>" else a,
           timestamp := t, message := m, branch := String.mk b, parent := p,
           tree := tw.1 }
       let cw := writeObject tw.2 commitKind (marshalCommit c)
       (.ok (c, cw.1), { cw.2 with refs := updAssoc cw.2.refs b cw.1 })) := by
  simp only [runCommit, getCurrentCommit, hb, hr, Bool.true_and, hp]
  simp [hp]

/-- Reading back a freshly written object through its returned hash decodes
to exactly the written kind and payload. -/
theorem readObject_writeObject (st : RepoState) (k : Bytes) (d : Bytes)
    (hk : isObjectKind k) :
    readObject (writeObject st k d).2 (writeObject st k d).1 = .ok (k, d) := by
  simp only [writeObject, readObject, lookupAssoc_updAssoc_self, mkObjectContent,
    decodeObject_mkRawContent k hk d.length d, ne_eq, not_true_eq_false, if_neg]
  simp

/-- Lookup of the only entry of a singleton store. -/
theorem lookupAssoc_singleton {κ α : Type} [DecidableEq κ] (k : κ) (v : α) :
    lookupAssoc [(k, v)] k = some v := by
  simp [lookupAssoc]

/-- The filter loop of `runAdd`, with a generalized accumulator: kept paths
are exactly the asset paths, skipped paths exactly the others, in order. -/
theorem processMatches_foldl (ms : List (List String)) :
    ∀ acc1 acc2 : List (List String),
      ms.foldl
        (fun acc m => if isAssetPath m then (acc.1 ++ [m], acc.2) else (acc.1, acc.2 ++ [m]))
        (acc1, acc2) =
      (acc1 ++ ms.filter (fun m => isAssetPath m),
       acc2 ++ ms.filter (fun m => !isAssetPath m)) := by
  induction ms with
  | nil => intro acc1 acc2; simp
  | cons m ms ih =>
    intro acc1 acc2
    by_cases h : isAssetPath m = true
    · simp [h, ih]
    · have h2 : isAssetPath m = false := by
        cases hh : isAssetPath m with
        | true => exact absurd hh h
        | false => rfl
      simp [h2, ih]

/-! ## The claims -/

/-- Claim C1, counterexample: store the blob payload `[65, 66, 67]` (whose
hash names the object file), then flip its last payload byte to `68` inside
the stored file — same length, so the stored bytes are exactly
`mkObjectContent blobKind [65, 66, 68]`.  Reading back through the original
hash succeeds and returns the corrupted payload instead of failing with an
integrity error, because `readObject` never re-derives the hash. -/
theorem C1_corruption_counterexample :
    readObject ⟨[(sha256Hex [65, 66, 67], mkObjectContent blobKind [65, 66, 68])], [], []⟩
      (sha256Hex [65, 66, 67]) = .ok (blobKind, [65, 66, 68]) := by
  have hk : isObjectKind blobKind := Or.inl rfl
  simp only [readObject, lookupAssoc_singleton, mkObjectContent,
    decodeObject_mkRawContent blobKind hk]
  simp

/-- Claim C1, amended: `readObject` checks only that the header-declared
size equals the payload length (and fails on mismatch), but it never
re-derives the content hash, so any well-formed object stored under a
requested hash — including a same-length corruption of the original
payload — is returned successfully. -/
theorem C1_size_check_only (k : Bytes) (hk : isObjectKind k) (s : Nat) (d d2 : Bytes)
    (hs : s ≠ d.length) (hlen : d2.length = d.length) :
    decodeObject (mkRawContent k s d) =
      .error ("object size mismatch: expected " ++ toString s ++ ", got " ++
        toString d.length) ∧
    readObject ⟨[(sha256Hex d, mkObjectContent k d2)], [], []⟩ (sha256Hex d) =
      .ok (k, d2) := by
  constructor
  · rw [decodeObject_mkRawContent k hk s d, if_pos (fun hh => hs hh.symm)]
  · simp only [readObject, lookupAssoc_singleton, mkObjectContent,
      decodeObject_mkRawContent k hk]
    simp

/-- Witness for C1: the amended theorem at kind `blob`, declared size `5`
against payload `[65, 66, 67]`, and stored payload `[65, 66, 68]` (a
same-length corruption of `[65, 66, 67]`). -/
theorem C1_size_check_only_witness :
    isObjectKind blobKind ∧ (5 : Nat) ≠ ([65, 66, 67] : Bytes).length ∧
    ([65, 66, 68] : Bytes).length = ([65, 66, 67] : Bytes).length ∧
    (decodeObject (mkRawContent blobKind 5 [65, 66, 67]) =
        .error ("object size mismatch: expected " ++ toString (5 : Nat) ++ ", got " ++
          toString ([65, 66, 67] : Bytes).length) ∧
      readObject ⟨[(sha256Hex [65, 66, 67], mkObjectContent blobKind [65, 66, 68])], [], []⟩
          (sha256Hex [65, 66, 67]) = .ok (blobKind, [65, 66, 68])) :=
  ⟨by decide, by decide, by decide,
   C1_size_check_only blobKind (by decide) 5 [65, 66, 67] [65, 66, 68]
     (by decide) (by decide)⟩

/-- Claim C2, counterexample: the bytes `writeObject` feeds to SHA-256 for
the blob payload `[65]` are the payload alone, not the canonical encoding
`"blob 1\0" + payload` demanded by the spec — the kind tag and byte length
are not part of the hashed input. -/
theorem C2_hash_input_counterexample :
    hashInput blobKind [65] ≠ specCanonicalEncoding blobKind [65] ∧
    (writeObject ⟨[], [], []⟩ blobKind [65]).1 = sha256Hex (hashInput blobKind [65]) := by
  constructor
  · intro h
    have hlen := congrArg List.length h
    have hb : blobKind.length = 4 := rfl
    have hpos : 0 < (natToDigits 1).length :=
      List.length_pos.mpr (natToDigits_ne_nil 1)
    simp only [hashInput, specCanonicalEncoding, List.length_append, List.length_cons,
      List.length_singleton, List.length_nil] at hlen
    omega
  · rfl

/-- Claim C2, amended: the hash returned by `writeObject` is the SHA-256
digest of the marshaled payload bytes alone; the kind tag (and the length
header) appear only in the stored file content, so two writes of the same
payload under different kinds return the same hash. -/
theorem C2_hash_payload_only (st st2 : RepoState) (k k2 : Bytes) (d : Bytes) :
    (writeObject st k d).1 = sha256Hex d ∧
    (writeObject st k d).1 = (writeObject st2 k2 d).1 :=
  ⟨rfl, rfl⟩

/-- Claim C3, counterexample: a repository whose HEAD commit's `tree` field
equals the hash of the tree `runCommit` is about to write (the no-op
situation: nothing staged beyond the parent's tree), with `amend = false`.
The spec demands a no-op-commit failure; `runCommit` succeeds. -/
theorem C3_noop_commit_counterexample :
    noopHeadCommit.tree = (writeObject noopState treeKind emptyTreeData).1 ∧
    lookupAssoc noopState.refs "main".data = some "aaaa" ∧
    lookupAssoc noopState.objects "aaaa" =
      some (mkObjectContent commitKind (marshalCommit noopHeadCommit)) ∧
    (runCommit noopState false "second" "" "c1" "t1").1.isOk = true := by
  refine ⟨rfl, by decide, ?_, ?_⟩
  · simp [noopState, lookupAssoc]
  · rw [runCommit_noamend_eq noopState "second" "" "c1" "t1" "main".data (by decide)]
    rfl

/-- Claim C3, amended: `runCommit` performs no no-op check at all: whenever
HEAD is symbolic, a commit with `amend = false` succeeds unconditionally —
it writes the tree and commit objects and points the branch ref at the new
commit hash, even when the new tree hash equals the HEAD commit's tree
hash. -/
theorem C3_no_noop_guard (st : RepoState) (m a i t : String) (b : List Char)
    (hb : getCurrentBranch st.head = .ok b) :
    ∃ c ch, (runCommit st false m a i t).1 = .ok (c, ch) ∧
      lookupAssoc (runCommit st false m a i t).2.refs b = some ch := by
  rw [runCommit_noamend_eq st m a i t b hb]
  exact ⟨_, _, rfl, lookupAssoc_updAssoc_self _ _ _⟩

/-- Witness for C3: the amended theorem on a concrete repository with a
symbolic HEAD on `main`. -/
theorem C3_no_noop_guard_witness :
    getCurrentBranch (RepoState.mk [] [("main".data, "h0")] "ref: refs/heads/main".data).head =
      .ok "main".data ∧
    (∃ c ch,
      (runCommit (RepoState.mk [] [("main".data, "h0")] "ref: refs/heads/main".data)
          false "m" "" "i" "t").1 = .ok (c, ch) ∧
      lookupAssoc
        (runCommit (RepoState.mk [] [("main".data, "h0")] "ref: refs/heads/main".data)
          false "m" "" "i" "t").2.refs "main".data = some ch) :=
  ⟨by decide,
   C3_no_noop_guard (RepoState.mk [] [("main".data, "h0")] "ref: refs/heads/main".data)
     "m" "" "i" "t" "main".data (by decide)⟩

/-- Claim C4, counterexample: on a repository whose branch ref `main` holds
commit hash `aaaa` (whose own parent is `gggg`), a commit with
`amend = false` records the empty parent — not the previous HEAD `aaaa` as
claimed — and a commit with `amend = true` records the previous HEAD `aaaa`
itself — not the grandparent `gggg` as claimed, so the amended-away commit
stays reachable as the new commit's parent. -/
theorem C4_parent_linkage_counterexample :
    lookupAssoc c4State.refs "main".data = some "aaaa" ∧
    c4HeadCommit.parent = "gggg" ∧
    commitParentOf (runCommit c4State false "second" "" "c1" "t1").1 = some "" ∧
    commitParentOf (runCommit c4State true "second" "" "c1" "t1").1 = some "aaaa" ∧
    ("" : String) ≠ "aaaa" ∧ ("aaaa" : String) ≠ "gggg" := by
  refine ⟨by decide, rfl, ?_, ?_, by decide, by decide⟩
  · rw [runCommit_noamend_eq c4State "second" "" "c1" "t1" "main".data (by decide)]
    rfl
  · rw [runCommit_amend_eq c4State "second" "" "c1" "t1" "main".data "aaaa"
      (by decide) (by decide) (by decide)]
    rfl

/-- Claim C4, amended: a commit with `amend = false` records no parent at
all (empty `parent` field), and a commit with `amend = true` records the
previous HEAD commit itself (the commit being amended away) as parent. -/
theorem C4_parent_linkage (st : RepoState) (m a i t : String) (b : List Char) (p : String)
    (hb : getCurrentBranch st.head = .ok b)
    (hr : lookupAssoc st.refs b = some p) (hp : p ≠ "") :
    commitParentOf (runCommit st false m a i t).1 = some "" ∧
    commitParentOf (runCommit st true m a i t).1 = some p := by
  constructor
  · rw [runCommit_noamend_eq st m a i t b hb]
    rfl
  · rw [runCommit_amend_eq st m a i t b p hb hr hp]
    rfl

/-- Witness for C4: the amended theorem on the concrete repository
`c4State`. -/
theorem C4_parent_linkage_witness :
    getCurrentBranch c4State.head = .ok "main".data ∧
    lookupAssoc c4State.refs "main".data = some "aaaa" ∧ ("aaaa" : String) ≠ "" ∧
    (commitParentOf (runCommit c4State false "m" "" "i" "t").1 = some "" ∧
     commitParentOf (runCommit c4State true "m" "" "i" "t").1 = some "aaaa") :=
  ⟨by decide, by decide, by decide,
   C4_parent_linkage c4State "m" "" "i" "t" "main".data "aaaa"
     (by decide) (by decide) (by decide)⟩

/-- Claim C5, counterexample: the filesystem traces of an object write and
of a branch-ref update contain no rename at all — both write directly to
the final path, contradicting the claimed temp-and-rename mechanism. -/
theorem C5_no_rename_counterexample :
    (writeObjectOps blobKind [65]).any FsOp.isRename = false ∧
    (updateRefOps "main".data "aaaa").any FsOp.isRename = false :=
  ⟨rfl, rfl⟩

/-- Claim C5, amended: every object write is a `MkdirAll` followed by a
single `WriteFile` straight to the final hash-derived path, and every
branch-ref update is a single `WriteFile` straight to the ref path; no
temporary location and no rename is ever used, so a concurrent reader can
observe a partially written file. -/
theorem C5_direct_writes (k d : Bytes) (b : List Char) (ch : String) :
    (writeObjectOps k d).any FsOp.isRename = false ∧
    (updateRefOps b ch).any FsOp.isRename = false ∧
    FsOp.writeFile (objectPath (sha256Hex (hashInput k d))) (mkObjectContent k d) ∈
      writeObjectOps k d ∧
    FsOp.writeFile (".rdb/refs/heads/" ++ String.mk b) (strBytes ch) ∈
      updateRefOps b ch := by
  refine ⟨rfl, rfl, ?_, ?_⟩
  · simp [writeObjectOps]
  · simp [updateRefOps]

/-- Claim C6: reading a freshly stored object back through the hash
returned by the write yields exactly the stored kind and payload, and
writing the same kind and payload twice (from any two states) returns the
same hash. -/
theorem C6_roundtrip (st st2 : RepoState) (k : Bytes) (d : Bytes)
    (hk : isObjectKind k) :
    readObject (writeObject st k d).2 (writeObject st k d).1 = .ok (k, d) ∧
    (writeObject st k d).1 = (writeObject st2 k d).1 :=
  ⟨readObject_writeObject st k d hk, rfl⟩

/-- Witness for C6: the roundtrip at kind `blob` and payload `[104, 105]`
from the empty store and from a store holding an unrelated object. -/
theorem C6_roundtrip_witness :
    isObjectKind blobKind ∧
    (readObject (writeObject ⟨[], [], []⟩ blobKind [104, 105]).2
        (writeObject ⟨[], [], []⟩ blobKind [104, 105]).1 = .ok (blobKind, [104, 105]) ∧
     (writeObject ⟨[], [], []⟩ blobKind [104, 105]).1 =
       (writeObject ⟨[("k", [1])], [], []⟩ blobKind [104, 105]).1) :=
  ⟨by decide,
   C6_roundtrip ⟨[], [], []⟩ ⟨[("k", [1])], [], []⟩ blobKind [104, 105] (by decide)⟩

/-- Claim C7: a candidate path is skipped (not kept) by staging exactly
when the spec's rejection predicate holds — outside the `assets` root or
second segment not a numeric ID — and the `runAdd` filter loop keeps
exactly the asset paths and skips exactly the others, in order, without
ever failing. -/
theorem C7_non_asset_path_skip (parts : List String) (ms : List (List String)) :
    (isAssetPath parts = false ↔ specNonAssetPath parts = true) ∧
    (processMatches ms).1 = ms.filter (fun m => isAssetPath m) ∧
    (processMatches ms).2 = ms.filter (fun m => !isAssetPath m) := by
  refine ⟨?_, ?_, ?_⟩
  · rcases parts with _ | ⟨p0, _ | ⟨p1, r2⟩⟩
    · simp [isAssetPath, specNonAssetPath]
    · simp [isAssetPath, specNonAssetPath]
    · simp [isAssetPath, specNonAssetPath]
      tauto
  · simp [processMatches, processMatches_foldl ms [] []]
  · simp [processMatches, processMatches_foldl ms [] []]

/-- Claim C8: `getAssetTypeFromID` is total and deterministic — an ID
present in the mapping resolves to its canonical type, and any other ID
resolves to the sentinel `"unknown"` instead of failing. -/
theorem C8_resolve_type (id : Int) (ty : String) :
    (lookupAssoc assetTypeMap id = some ty → getAssetTypeFromID id = ty) ∧
    (lookupAssoc assetTypeMap id = none → getAssetTypeFromID id = "unknown") := by
  constructor <;> intro h <;> simp [getAssetTypeFromID, h]

/-- Witness for C8: ID 1030002 resolves to `"string"`; the unmapped ID 42
resolves to `"unknown"`. -/
theorem C8_resolve_type_witness :
    (lookupAssoc assetTypeMap 1030002 = some "string" ∧
      getAssetTypeFromID 1030002 = "string") ∧
    (lookupAssoc assetTypeMap 42 = none ∧ getAssetTypeFromID 42 = "unknown") :=
  ⟨⟨by decide, (C8_resolve_type 1030002 "string").1 (by decide)⟩,
   ⟨by decide, (C8_resolve_type 42 "unknown").2 (by decide)⟩⟩

/-- Claim C9: when HEAD holds a raw (detached) commit hash — a non-empty
string of hex digits — `runCommit` fails with the branch-resolution error
before writing anything, and the repository state (in particular every
branch ref) is unchanged. -/
theorem C9_commit_requires_symbolic_head (st : RepoState) (amend : Bool)
    (m a i t : String) (hne : st.head ≠ [])
    (hhex : ∀ c ∈ st.head, isHexChar c = true) :
    (runCommit st amend m a i t).1 = .error "failed to get current branch" ∧
    (runCommit st amend m a i t).2 = st := by
  rw [runCommit_branch_error st amend m a i t "HEAD is not pointing to a branch"
    (getCurrentBranch_hex st.head hhex)]
  exact ⟨rfl, rfl⟩

/-- Witness for C9: a repository with a detached HEAD holding a 64-hex-digit
commit hash and one branch ref. -/
theorem C9_commit_requires_symbolic_head_witness :
    (RepoState.mk [] [("main".data, "aaaa")]
        "0123456789abcdef0123456789abcdef0123456789abcdef0123456789abcdef".data).head ≠ [] ∧
    (∀ c ∈ (RepoState.mk [] [("main".data, "aaaa")]
        "0123456789abcdef0123456789abcdef0123456789abcdef0123456789abcdef".data).head,
      isHexChar c = true) ∧
    ((runCommit (RepoState.mk [] [("main".data, "aaaa")]
        "0123456789abcdef0123456789abcdef0123456789abcdef0123456789abcdef".data)
        false "m" "" "i" "t").1 = .error "failed to get current branch" ∧
     (runCommit (RepoState.mk [] [("main".data, "aaaa")]
        "0123456789abcdef0123456789abcdef0123456789abcdef0123456789abcdef".data)
        false "m" "" "i" "t").2 =
       RepoState.mk [] [("main".data, "aaaa")]
        "0123456789abcdef0123456789abcdef0123456789abcdef0123456789abcdef".data) :=
  ⟨by decide, by decide,
   C9_commit_requires_symbolic_head
     (RepoState.mk [] [("main".data, "aaaa")]
       "0123456789abcdef0123456789abcdef0123456789abcdef0123456789abcdef".data)
     false "m" "" "i" "t" (by decide) (by decide)⟩

/-- Claim C10: `GetCurrentBranch` is not total — on HEAD content
`"ref: main"` (9 bytes, passing the `len > 5` and `"ref: "` prefix checks)
the slice `head[16:]` is out of range and the function panics instead of
returning a branch name or an error. -/
theorem C10_head_slice_panics : getCurrentBranch "ref: main".data = .panics := by
  decide
